import Mathlib

/-!
Shallow embedding of the basketball record-keeping app
(`src/streamlit_app.py`) and proofs about its accuracy computation,
record reconciliation, win-indicator normalization, monthly medals and
roster operations.

Numeric cells (shot counts, accuracy percentages, heights, weights) are
modelled as exact rationals; Python's `round(x, 2)` is modelled as
round-half-to-even on the exact rational value.
-/

namespace Basketball

/-- Round-half-to-even of a rational to an integer, modelling Python's
built-in `round` applied to the exact value. -/
def roundHalfEvenInt (q : ℚ) : ℤ :=
  if q - ⌊q⌋ < 1/2 then ⌊q⌋
  else if 1/2 < q - ⌊q⌋ then ⌊q⌋ + 1
  else if ⌊q⌋ % 2 = 0 then ⌊q⌋ else ⌊q⌋ + 1

/-- Python's `round(x, 2)` on exact rationals. -/
def round2 (q : ℚ) : ℚ := (roundHalfEvenInt (q * 100) : ℚ) / 100

/-- `calc_accuracy` (src/streamlit_app.py:165-177):
`round((made / shots) * 100, 2) if shots else 0.0`. -/
def calc_accuracy (shots made : ℚ) : ℚ :=
  if shots = 0 then 0 else round2 (made / shots * 100)

/-- The spec's reference definition of accuracy (§4.2), written from the
spec's words for comparison with `calc_accuracy`:
`round(made/attempted*100, 2)` if `attempted > 0` else `0.0`. -/
def accuracy_spec (attempted made : ℚ) : ℚ :=
  if 0 < attempted then round2 (made / attempted * 100) else 0

/-- Evaluation rule for `roundHalfEvenInt` when the fractional part is
below one half. -/
lemma roundHalfEvenInt_eval_lo (q : ℚ) (n : ℤ) (h1 : ⌊q⌋ = n)
    (h2 : q - (n : ℚ) < 1/2) : roundHalfEvenInt q = n := by
  unfold roundHalfEvenInt
  rw [h1, if_pos h2]

lemma roundHalfEvenInt_nonneg (q : ℚ) (h : 0 ≤ q) : 0 ≤ roundHalfEvenInt q := by
  have hf : 0 ≤ ⌊q⌋ := Int.floor_nonneg.mpr h
  unfold roundHalfEvenInt
  split_ifs <;> omega

lemma roundHalfEvenInt_le (q : ℚ) (n : ℤ) (h : q ≤ (n : ℚ)) :
    roundHalfEvenInt q ≤ n := by
  have hf : ⌊q⌋ ≤ n := by
    have := Int.floor_le_floor h
    rwa [Int.floor_intCast] at this
  by_cases hA : q - ⌊q⌋ < 1/2
  · rw [roundHalfEvenInt, if_pos hA]
    exact hf
  · have hq : (⌊q⌋ : ℚ) + 1/2 ≤ q := by
      push_neg at hA
      linarith
    have hlt : ⌊q⌋ < n := by
      have hcast : (⌊q⌋ : ℚ) < (n : ℚ) := by linarith
      exact_mod_cast hcast
    rw [roundHalfEvenInt, if_neg hA]
    split_ifs <;> omega

lemma round2_nonneg (q : ℚ) (h : 0 ≤ q) : 0 ≤ round2 q := by
  unfold round2
  have h1 : 0 ≤ roundHalfEvenInt (q * 100) :=
    roundHalfEvenInt_nonneg _ (by positivity)
  have h2 : (0 : ℚ) ≤ (roundHalfEvenInt (q * 100) : ℚ) := by exact_mod_cast h1
  positivity

lemma round2_le_100 (q : ℚ) (h : q ≤ 100) : round2 q ≤ 100 := by
  unfold round2
  have h1 : roundHalfEvenInt (q * 100) ≤ (10000 : ℤ) := by
    apply roundHalfEvenInt_le
    push_cast
    linarith
  have h2 : (roundHalfEvenInt (q * 100) : ℚ) ≤ 10000 := by exact_mod_cast h1
  linarith

lemma calc_accuracy_of_ne (shots made : ℚ) (h : shots ≠ 0) :
    calc_accuracy shots made = round2 (made / shots * 100) := by
  rw [calc_accuracy, if_neg h]

/-- One row of the record store `data.csv`
(columns `record_id`, `日期`, `球員`, `投籃數`, `命中數`, `是否贏球`, `命中率`). -/
structure GameRecord where
  record_id : String
  date : String
  player : String
  shots : ℚ
  made : ℚ
  won : String
  accuracy : ℚ
deriving DecidableEq, Repr

/-- A row of the editable table in `edit_records_section`
(src/streamlit_app.py:360-364): the computed `命中率` column is dropped
before editing, the other columns are user-editable. -/
structure EditedRow where
  record_id : String
  date : String
  player : String
  shots : ℚ
  made : ℚ
  won : String
deriving DecidableEq, Repr

/-- The per-row recomputation on save (src/streamlit_app.py:368-370):
`edited_df["命中率"] = edited_df.apply(lambda r: calc_accuracy(r["投籃數"], r["命中數"]), axis=1)`. -/
def recompute (e : EditedRow) : GameRecord :=
  ⟨e.record_id, e.date, e.player, e.shots, e.made, e.won,
    calc_accuracy e.shots e.made⟩

/-- One iteration of the save loop (src/streamlit_app.py:374-375):
`full_df.loc[full_df["record_id"] == row["record_id"], full_df.columns] = row`
replaces every full row whose `record_id` equals the edited row's id by the
edited row. -/
def applyEditRow (full : List GameRecord) (row : GameRecord) : List GameRecord :=
  full.map fun r => if r.record_id = row.record_id then row else r

/-- The whole save handler of `edit_records_section`
(src/streamlit_app.py:366-377): recompute `命中率` on every edited row,
then run the replacement loop over the edited rows in order, and persist
the result. -/
def save_edits (full : List GameRecord) (edited : List EditedRow) : List GameRecord :=
  (edited.map recompute).foldl applyEditRow full

/-- The last row of `rows` whose `record_id` is `i`, if any; the loop in
`edit_records_section` makes the last matching edited row win. -/
def lastMatchRow (rows : List GameRecord) (i : String) : Option GameRecord :=
  match rows with
  | [] => none
  | e :: rest =>
    match lastMatchRow rest i with
    | some x => some x
    | none => if e.record_id = i then some e else none

/-- The last edited row carrying id `i`, if any. -/
def lastEdit (edited : List EditedRow) (i : String) : Option EditedRow :=
  match edited with
  | [] => none
  | e :: rest =>
    match lastEdit rest i with
    | some x => some x
    | none => if e.record_id = i then some e else none

lemma lastMatchRow_record_id (rows : List GameRecord) (i : String)
    (x : GameRecord) (h : lastMatchRow rows i = some x) : x.record_id = i := by
  induction rows with
  | nil => simp [lastMatchRow] at h
  | cons e rest ih =>
    rw [lastMatchRow] at h
    cases hm : lastMatchRow rest i with
    | some y =>
      rw [hm] at h
      cases h
      exact ih hm
    | none =>
      rw [hm] at h
      by_cases he : e.record_id = i
      · rw [if_pos he] at h
        cases h
        exact he
      · rw [if_neg he] at h
        cases h

lemma lastEdit_record_id (edited : List EditedRow) (i : String)
    (e : EditedRow) (h : lastEdit edited i = some e) : e.record_id = i := by
  induction edited with
  | nil => simp [lastEdit] at h
  | cons x rest ih =>
    rw [lastEdit] at h
    cases hm : lastEdit rest i with
    | some y =>
      rw [hm] at h
      cases h
      exact ih hm
    | none =>
      rw [hm] at h
      by_cases hx : x.record_id = i
      · rw [if_pos hx] at h
        cases h
        exact hx
      · rw [if_neg hx] at h
        cases h

lemma lastEdit_mem (edited : List EditedRow) (i : String)
    (e : EditedRow) (h : lastEdit edited i = some e) : e ∈ edited := by
  induction edited with
  | nil => simp [lastEdit] at h
  | cons x rest ih =>
    rw [lastEdit] at h
    cases hm : lastEdit rest i with
    | some y =>
      rw [hm] at h
      cases h
      exact List.mem_cons_of_mem _ (ih hm)
    | none =>
      rw [hm] at h
      by_cases hx : x.record_id = i
      · rw [if_pos hx] at h
        cases h
        exact List.mem_cons_self _ _
      · rw [if_neg hx] at h
        cases h

lemma lastEdit_eq_none_iff (edited : List EditedRow) (i : String) :
    lastEdit edited i = none ↔ i ∉ edited.map EditedRow.record_id := by
  induction edited with
  | nil => simp [lastEdit]
  | cons x rest ih =>
    rw [lastEdit]
    cases hm : lastEdit rest i with
    | some y =>
      have hmem : i ∈ rest.map EditedRow.record_id := by
        by_contra hc
        rw [ih.mpr hc] at hm
        cases hm
      constructor
      · intro h
        cases h
      · intro h
        exact absurd (by
          simp only [List.map_cons, List.mem_cons]
          exact Or.inr hmem) h
    | none =>
      have hrest : i ∉ rest.map EditedRow.record_id := ih.mp hm
      by_cases hx : x.record_id = i
      · rw [if_pos hx]
        constructor
        · intro h
          cases h
        · intro h
          exact absurd (by
            simp only [List.map_cons, List.mem_cons]
            exact Or.inl hx.symm) h
      · rw [if_neg hx]
        simp only [List.map_cons, List.mem_cons]
        constructor
        · intro _ h
          rcases h with h | h
          · exact hx h.symm
          · exact hrest h
        · intro _
          trivial

lemma lastMatchRow_map_recompute (edited : List EditedRow) (i : String) :
    lastMatchRow (edited.map recompute) i = (lastEdit edited i).map recompute := by
  induction edited with
  | nil => simp [lastMatchRow, lastEdit]
  | cons e rest ih =>
    rw [List.map_cons, lastMatchRow, lastEdit, ih]
    cases hm : lastEdit rest i with
    | some x => simp
    | none =>
      simp only [Option.map_none]
      have hid : (recompute e).record_id = e.record_id := rfl
      by_cases he : e.record_id = i
      · rw [hid, if_pos he, if_pos he]
        rfl
      · rw [hid, if_neg he, if_neg he]
        rfl

lemma foldl_applyEditRow_eq (rows full : List GameRecord) :
    rows.foldl applyEditRow full
      = full.map fun r => (lastMatchRow rows r.record_id).getD r := by
  induction rows generalizing full with
  | nil =>
    simp [lastMatchRow]
  | cons e rest ih =>
    rw [List.foldl_cons, ih, applyEditRow, List.map_map]
    apply List.map_congr_left
    intro r _
    simp only [Function.comp_apply]
    by_cases h : r.record_id = e.record_id
    · rw [if_pos h, lastMatchRow, h]
      cases hm : lastMatchRow rest e.record_id with
      | some x => simp
      | none => simp
    · rw [if_neg h, lastMatchRow]
      cases hm : lastMatchRow rest r.record_id with
      | some x => simp
      | none =>
        have h' : ¬ e.record_id = r.record_id := fun he => h he.symm
        simp [h']

/-- Pointwise description of the save: the row at position `i` is the
recomputed last matching edited row if one exists, else the original row. -/
lemma save_edits_eq (full : List GameRecord) (edited : List EditedRow) :
    save_edits full edited
      = full.map fun r => ((lastEdit edited r.record_id).map recompute).getD r := by
  rw [save_edits, foldl_applyEditRow_eq]
  apply List.map_congr_left
  intro r _
  rw [lastMatchRow_map_recompute]

lemma save_edits_map_record_id (full : List GameRecord) (edited : List EditedRow) :
    (save_edits full edited).map GameRecord.record_id
      = full.map GameRecord.record_id := by
  rw [save_edits_eq, List.map_map]
  apply List.map_congr_left
  intro r _
  simp only [Function.comp_apply]
  cases hm : lastEdit edited r.record_id with
  | some e => exact lastEdit_record_id _ _ _ hm
  | none => rfl

lemma save_edits_getElem? (full : List GameRecord) (edited : List EditedRow)
    (i : ℕ) (r : GameRecord) (h : full[i]? = some r) :
    (save_edits full edited)[i]?
      = some (((lastEdit edited r.record_id).map recompute).getD r) := by
  rw [save_edits_eq, List.getElem?_map, h]
  rfl

lemma save_edits_length (full : List GameRecord) (edited : List EditedRow) :
    (save_edits full edited).length = full.length := by
  rw [save_edits_eq, List.length_map]

lemma save_edits_mem_of_unmatched (full : List GameRecord) (edited : List EditedRow)
    (r : GameRecord) (hr : r ∈ full)
    (h : r.record_id ∉ edited.map EditedRow.record_id) :
    r ∈ save_edits full edited := by
  rw [save_edits_eq]
  refine List.mem_map.mpr ⟨r, hr, ?_⟩
  rw [(lastEdit_eq_none_iff edited r.record_id).mpr h]
  rfl

/-- The add-record flow (src/streamlit_app.py:203-222): reject the row if
`made > shots` (warning, store unchanged); otherwise append a fresh row
whose `命中率` is `calc_accuracy(shots, made)`. -/
def add_record_submit (df : List GameRecord)
    (newId dateStr player : String) (shots made : ℚ) (win : String) :
    List GameRecord :=
  if made > shots then df
  else df ++ [⟨newId, dateStr, player, shots, made, win, calc_accuracy shots made⟩]

/-- Modelled from the spec: the win-indicator lookup table of §4.1 is not
part of src/streamlit_app.py (that revision only ever writes the two
selectbox values `✅ 是` / `❌ 否`); the table below maps the historical
spellings the spec describes (emoji+word pairs, bare words, booleans and
the canonical codes themselves) to the canonical tokens, here `"W"` and
`"L"`. -/
def winTable : List (String × String) :=
  [("✅ 是", "W"), ("❌ 否", "L"),
   ("是", "W"), ("否", "L"),
   ("True", "W"), ("False", "L"),
   ("Win", "W"), ("Lose", "L"),
   ("W", "W"), ("L", "L")]

/-- First-match lookup in an association list of strings (the reference
semantics of a Python dict `.get`). -/
def lookupWin : List (String × String) → String → Option String
  | [], _ => none
  | (k, v) :: rest, s => if s = k then some v else lookupWin rest s

/-- Modelled from the spec (§4.1): `normalizeWinIndicator` is absent from
src/streamlit_app.py; per the spec it sends blank to blank (modelled as
`""`), known spellings through the lookup table, and any other non-blank
value to the LOST token. -/
def normalizeWinIndicator (raw : String) : String :=
  if raw = "" then ""
  else
    match lookupWin winTable raw with
    | some c => c
    | none => "L"

/-- Modelled from the spec (§4.1): the normalization pass that runs on
load and immediately before every save, applied to the win field of every
record. -/
def normalizeRecordsPass (rs : List GameRecord) : List GameRecord :=
  rs.map fun r => { r with won := normalizeWinIndicator r.won }

lemma lookupWin_values (t : List (String × String)) (s c : String)
    (hv : ∀ kv ∈ t, kv.2 = "W" ∨ kv.2 = "L") (h : lookupWin t s = some c) :
    c = "W" ∨ c = "L" := by
  induction t with
  | nil => cases h
  | cons kv rest ih =>
    obtain ⟨k, v⟩ := kv
    rw [lookupWin] at h
    by_cases hs : s = k
    · rw [if_pos hs] at h
      have hv2 := hv (k, v) (List.mem_cons_self _ _)
      cases h
      exact hv2
    · rw [if_neg hs] at h
      exact ih (fun kv hkv => hv kv (List.mem_cons_of_mem _ hkv)) h

lemma winTable_values : ∀ kv ∈ winTable, kv.2 = "W" ∨ kv.2 = "L" := by decide

lemma normalizeWinIndicator_output (s : String) :
    normalizeWinIndicator s = "" ∨ normalizeWinIndicator s = "W"
      ∨ normalizeWinIndicator s = "L" := by
  unfold normalizeWinIndicator
  by_cases h : s = ""
  · rw [if_pos h]
    left
    rfl
  · rw [if_neg h]
    cases hl : lookupWin winTable s with
    | some c =>
      right
      exact lookupWin_values _ _ _ winTable_values hl
    | none =>
      right
      right
      rfl

lemma normalizeWinIndicator_idem (s : String) :
    normalizeWinIndicator (normalizeWinIndicator s) = normalizeWinIndicator s := by
  rcases normalizeWinIndicator_output s with h | h | h <;> rw [h] <;> rfl

/-- The medal ranks of the spec's monthly medal classifier (§4.2). -/
inductive Medal where
  | gold
  | silver
  | bronze
deriving DecidableEq, Repr

/-- Modelled from the spec (§4.2): the threshold classifier,
`>= 60` gold, `[50,60)` silver, `[35,50)` bronze, `< 35` no medal. -/
def classifyMedal (acc : ℚ) : Option Medal :=
  if 60 ≤ acc then some Medal.gold
  else if 50 ≤ acc then some Medal.silver
  else if 35 ≤ acc then some Medal.bronze
  else none

/-- Modelled from the spec (§4.2): one record of a single player as seen
by `monthlyMedals`; `month` is the parsed calendar month of `date`
(`none` = unparseable, excluded from grouping). -/
structure MonthlyRec where
  month : Option (ℕ × ℕ)
  attempted : ℚ
  made : ℚ
deriving DecidableEq, Repr

/-- The distinct parseable months occurring in the records. -/
def monthKeys (rs : List MonthlyRec) : List (ℕ × ℕ) :=
  (rs.filterMap MonthlyRec.month).dedup

/-- Modelled from the spec (§4.2): sum `shotsAttempted` and `shotsMade`
over one month's records, compute one monthly accuracy, classify it. -/
def monthMedal (rs : List MonthlyRec) (k : ℕ × ℕ) : Option Medal :=
  classifyMedal
    (calc_accuracy
      (((rs.filter fun r => r.month = some k).map MonthlyRec.attempted).sum)
      (((rs.filter fun r => r.month = some k).map MonthlyRec.made).sum))

/-- Modelled from the spec (§4.2): `monthlyMedals` counts
(gold, silver, bronze) over the player's months. -/
def monthlyMedals (rs : List MonthlyRec) : ℕ × ℕ × ℕ :=
  (((monthKeys rs).filterMap (monthMedal rs)).count Medal.gold,
   ((monthKeys rs).filterMap (monthMedal rs)).count Medal.silver,
   ((monthKeys rs).filterMap (monthMedal rs)).count Medal.bronze)

/-- One row of the roster `players.csv`
(columns `球員`, `生日`, `年紀`, `身高`, `性別`, `體重`; all stored as text). -/
structure Player where
  name : String
  birthday : String
  age : String
  height : String
  gender : String
  weight : String
deriving DecidableEq, Repr

/-- Python's `str.strip()` on the ASCII whitespace the app encounters,
as a structurally recursive function on the character list. -/
def dropLeadingWS : List Char → List Char
  | [] => []
  | c :: cs => if c = ' ' ∨ c = '\t' ∨ c = '\n' ∨ c = '\r' then dropLeadingWS cs else c :: cs

/-- Python's `name.strip()`. -/
def stripStr (s : String) : String :=
  ⟨(dropLeadingWS ((dropLeadingWS s.data).reverse)).reverse⟩

/-- The age computation shared by registration and update
(src/streamlit_app.py:140, 448-451, 632-635):
`today.year - birth.year - ((today.month, today.day) < (birth.month, birth.day))`
with Python's lexicographic tuple comparison. -/
def computeAge (ty : ℤ) (tm td : ℕ) (byr : ℤ) (bm bd : ℕ) : ℤ :=
  ty - byr - (if tm < bm ∨ (tm = bm ∧ td < bd) then 1 else 0)

/-- `add_player_details` (src/streamlit_app.py:115-152): strip the name;
empty name or a name already in the roster is a no-op; otherwise compute
the age from the birthday when age is blank and birthday given
(`birthParse` stands for the result of `pd.to_datetime(birthday)`,
`none` = parse failure, in which case age stays blank) and append the row. -/
def add_player_details (roster : List Player)
    (name birthday age height gender weight : String)
    (birthParse : Option (ℤ × ℕ × ℕ)) (today : ℤ × ℕ × ℕ) : List Player :=
  if stripStr name = "" then roster
  else if (roster.map Player.name).contains (stripStr name) then roster
  else
    let age2 :=
      if age = "" ∧ birthday ≠ "" then
        match birthParse with
        | some (byr, bm, bd) =>
            toString (computeAge today.1 today.2.1 today.2.2 byr bm bd)
        | none => ""
      else age
    roster ++ [⟨stripStr name, birthday, age2, height, gender, weight⟩]

/-- The registration surface of `player_management_section`
(src/streamlit_app.py:528-533): the message shown on submit; the name
arrives already stripped (`st.text_input("姓名").strip()`). -/
def registerMessage (roster : List Player) (name : String) : String :=
  if name = "" then "請輸入球員姓名"
  else if (roster.map Player.name).contains name then "此球員已登錄"
  else "✅ 成功新增球員！"

/-- Python's `int()` truncation toward zero on a float, on exact
rationals. -/
def pyTrunc (q : ℚ) : ℤ :=
  if 0 ≤ q then ⌊q⌋ else -⌊-q⌋

/-- `str(age_value) if age_value else ""` (src/streamlit_app.py:452, 636). -/
def ageStr (a : ℤ) : String :=
  if a = 0 then "" else toString a

/-- `str(int(x)) if x else ""` for heights and weights
(src/streamlit_app.py:453-455, 457-459, 637-639, 641-643). -/
def sizeStr (x : ℚ) : String :=
  if x = 0 then "" else toString (pyTrunc x)

/-- Two-digit zero padding, as in `strftime("%Y-%m-%d")`. -/
def pad2 (n : ℕ) : String :=
  if n < 10 then "0" ++ toString n else toString n

/-- `new_birthday.strftime("%Y-%m-%d")`. -/
def fmtDate (y : ℤ) (m d : ℕ) : String :=
  toString y ++ "-" ++ pad2 m ++ "-" ++ pad2 d

/-- The player-update submit handler, identical in `edit_records_section`
(src/streamlit_app.py:443-460) and `player_management_section`
(src/streamlit_app.py:626-645): rows whose `球員` equals the selected name
get birthday, auto-computed age, height, gender and weight overwritten;
zero age/height/weight is stored as `""`, nonzero height/weight as the
truncated integer's string. -/
def update_player_details (roster : List Player) (editName : String)
    (byr : ℤ) (bm bd : ℕ) (ty : ℤ) (tm td : ℕ)
    (newHeight : ℚ) (newGender : String) (newWeight : ℚ) : List Player :=
  roster.map fun p =>
    if p.name = editName then
      { p with
        birthday := fmtDate byr bm bd,
        age := ageStr (computeAge ty tm td byr bm bd),
        height := sizeStr newHeight,
        gender := newGender,
        weight := sizeStr newWeight }
    else p

/-!
## Claim theorems
-/

/-- C4: `calc_accuracy` equals the spec's reference definition: it returns
`round(made/attempted*100, 2)` when `attempted > 0` and `0.0` when
`attempted = 0`, it is total, and in particular `accuracy(0,0) = 0.0`,
`accuracy(10,7) = 70.0` and `accuracy(3,1) = 33.33`. -/
theorem calc_accuracy_matches_spec :
    (∀ a m : ℚ, 0 < a → calc_accuracy a m = round2 (m / a * 100))
    ∧ (∀ m : ℚ, calc_accuracy 0 m = 0)
    ∧ (∀ a m : ℚ, 0 ≤ a → calc_accuracy a m = accuracy_spec a m)
    ∧ calc_accuracy 0 0 = 0
    ∧ calc_accuracy 10 7 = 70
    ∧ calc_accuracy 3 1 = 33.33 := by
  refine ⟨?_, ?_, ?_, ?_, ?_, ?_⟩
  · intro a m ha
    exact calc_accuracy_of_ne a m (ne_of_gt ha)
  · intro m
    simp [calc_accuracy]
  · intro a m ha
    rcases eq_or_lt_of_le ha with h | h
    · rw [← h]
      simp [calc_accuracy, accuracy_spec]
    · rw [calc_accuracy_of_ne a m (ne_of_gt h), accuracy_spec, if_pos h]
  · simp [calc_accuracy]
  · rw [calc_accuracy_of_ne _ _ (by norm_num)]
    have h1 : ⌊(7 / 10 * 100 * 100 : ℚ)⌋ = 7000 := by norm_num [Int.floor_eq_iff]
    rw [round2, roundHalfEvenInt_eval_lo _ 7000 h1 (by norm_num)]
    norm_num
  · rw [calc_accuracy_of_ne _ _ (by norm_num)]
    have h1 : ⌊(1 / 3 * 100 * 100 : ℚ)⌋ = 3333 := by norm_num [Int.floor_eq_iff]
    rw [round2, roundHalfEvenInt_eval_lo _ 3333 h1 (by norm_num)]
    norm_num

/-- Witness for C4 at `attempted = 4`, `made = 1`. -/
theorem calc_accuracy_matches_spec_witness :
    calc_accuracy 4 1 = round2 (1 / 4 * 100)
    ∧ calc_accuracy 4 1 = accuracy_spec 4 1 :=
  ⟨calc_accuracy_matches_spec.1 4 1 (by decide),
   calc_accuracy_matches_spec.2.2.1 4 1 (by decide)⟩

/-- C5: for `0 ≤ made ≤ attempted`, the accuracy lies in `[0, 100]`. -/
theorem calc_accuracy_in_range (a m : ℚ) (h0 : 0 ≤ m) (h1 : m ≤ a) :
    0 ≤ calc_accuracy a m ∧ calc_accuracy a m ≤ 100 := by
  by_cases ha : a = 0
  · simp [calc_accuracy, ha]
  · have hapos : 0 < a := lt_of_le_of_ne (le_trans h0 h1) (Ne.symm ha)
    rw [calc_accuracy_of_ne a m ha]
    have hv0 : 0 ≤ m / a * 100 := by positivity
    have hv1 : m / a * 100 ≤ 100 := by
      have hle : m / a ≤ 1 := (div_le_one hapos).mpr h1
      linarith
    exact ⟨round2_nonneg _ hv0, round2_le_100 _ hv1⟩

/-- Witness for C5 at `attempted = 10`, `made = 7`. -/
theorem calc_accuracy_in_range_witness :
    0 ≤ calc_accuracy 10 7 ∧ calc_accuracy 10 7 ≤ 100 :=
  calc_accuracy_in_range 10 7 (by decide) (by decide)

/-- C9: the bulk-edit save preserves the stored `record_id` sequence —
no row is deleted and no row is inserted, only matching rows are
overwritten in place. -/
theorem save_preserves_record_ids (full : List GameRecord) (edited : List EditedRow) :
    (save_edits full edited).map GameRecord.record_id
      = full.map GameRecord.record_id :=
  save_edits_map_record_id full edited

/-- C3: every row shaped by submitted input — a row of the bulk-edit save
whose id occurs in the edited subset, or the row appended by the
add-record flow — carries `calc_accuracy` of its own shot counts as its
stored accuracy, never a user-supplied accuracy value. -/
theorem accuracy_recomputed_on_save :
    (∀ (full : List GameRecord) (edited : List EditedRow) (i : ℕ) (r : GameRecord),
        (save_edits full edited)[i]? = some r →
        r.record_id ∈ edited.map EditedRow.record_id →
        r.accuracy = calc_accuracy r.shots r.made)
    ∧ (∀ (df : List GameRecord) (newId dateStr player : String) (shots made : ℚ)
        (win : String) (r : GameRecord),
        r ∈ add_record_submit df newId dateStr player shots made win →
        r ∉ df →
        r.accuracy = calc_accuracy r.shots r.made) := by
  constructor
  · intro full edited i r hi hmem
    cases hf : full[i]? with
    | none =>
      have hnone : (save_edits full edited)[i]? = none := by
        rw [List.getElem?_eq_none_iff, save_edits_length]
        exact List.getElem?_eq_none_iff.mp hf
      rw [hnone] at hi
      cases hi
    | some r0 =>
      have h2 := save_edits_getElem? full edited i r0 hf
      rw [hi] at h2
      injection h2 with h2
      cases hm : lastEdit edited r0.record_id with
      | some e =>
        rw [hm] at h2
        simp only [Option.map_some', Option.getD_some] at h2
        subst h2
        rfl
      | none =>
        exfalso
        rw [hm] at h2
        simp only [Option.map_none', Option.getD_none] at h2
        subst h2
        exact (lastEdit_eq_none_iff edited r.record_id).mp hm hmem
  · intro df newId dateStr player shots made win r hr hnew
    rw [add_record_submit] at hr
    by_cases hms : made > shots
    · rw [if_pos hms] at hr
      exact absurd hr hnew
    · rw [if_neg hms] at hr
      rcases List.mem_append.mp hr with h | h
      · exact absurd h hnew
      · have := List.mem_singleton.mp h
        subst this
        rfl

/-- Witness for C3: an edited row applied to a one-row store, and the row
appended to an empty store by the add flow. -/
theorem accuracy_recomputed_on_save_witness :
    (recompute ⟨"1", "2024-01-05", "A", 8, 4, "✅ 是"⟩).accuracy
      = calc_accuracy (recompute ⟨"1", "2024-01-05", "A", 8, 4, "✅ 是"⟩).shots
          (recompute ⟨"1", "2024-01-05", "A", 8, 4, "✅ 是"⟩).made
    ∧ (⟨"9", "2024-01-06", "B", 5, 2, "❌ 否", calc_accuracy 5 2⟩ : GameRecord).accuracy
      = calc_accuracy
          (⟨"9", "2024-01-06", "B", 5, 2, "❌ 否", calc_accuracy 5 2⟩ : GameRecord).shots
          (⟨"9", "2024-01-06", "B", 5, 2, "❌ 否", calc_accuracy 5 2⟩ : GameRecord).made :=
  ⟨accuracy_recomputed_on_save.1
      [⟨"1", "2024-01-05", "A", 10, 5, "✅ 是", 50⟩]
      [⟨"1", "2024-01-05", "A", 8, 4, "✅ 是"⟩] 0 _ rfl (by decide),
   accuracy_recomputed_on_save.2 [] "9" "2024-01-06" "B" 5 2 "❌ 否" _
      (by
        rw [add_record_submit, if_neg (by decide : ¬ (2 : ℚ) > 5)]
        simp)
      (by simp)⟩

/-- C1 counterexample: starting from `{id:1, player:A}` and
`{id:2, player:B}`, editing the A-filtered subset to remove row 1 and add
a new A row (fresh id 3) and saving leaves the store completely unchanged:
row 1 is not deleted and row 3 is not inserted, contradicting full
replacement of A's records. -/
theorem player_filtered_replacement_counterexample :
    save_edits
        [⟨"1", "2024-01-01", "A", 10, 5, "✅ 是", 50⟩,
         ⟨"2", "2024-01-01", "B", 8, 4, "❌ 否", 50⟩]
        [⟨"3", "2024-01-02", "A", 6, 3, "✅ 是"⟩]
      = [⟨"1", "2024-01-01", "A", 10, 5, "✅ 是", 50⟩,
         ⟨"2", "2024-01-01", "B", 8, 4, "❌ 否", 50⟩]
    ∧ "1" ∈ (save_edits
        [⟨"1", "2024-01-01", "A", 10, 5, "✅ 是", 50⟩,
         ⟨"2", "2024-01-01", "B", 8, 4, "❌ 否", 50⟩]
        [⟨"3", "2024-01-02", "A", 6, 3, "✅ 是"⟩]).map GameRecord.record_id
    ∧ "3" ∉ (save_edits
        [⟨"1", "2024-01-01", "A", 10, 5, "✅ 是", 50⟩,
         ⟨"2", "2024-01-01", "B", 8, 4, "❌ 否", 50⟩]
        [⟨"3", "2024-01-02", "A", 6, 3, "✅ 是"⟩]).map GameRecord.record_id := by
  refine ⟨rfl, by decide, by decide⟩

/-- C1 (amended): the player-filtered save is update-only. Each on-disk
record whose `record_id` matches an edited row is wholly overwritten by
the accuracy-recomputed edited row — including its player field as edited,
so `playerName` is not force-set to the filter player; a record whose id
does not occur in the edited subset — in particular a row removed during
editing, or any other player's row — stays in the store, a row added
during editing whose id matches no on-disk record is not inserted, and the
store's `record_id` sequence (hence its length) is unchanged. -/
theorem save_edits_update_only (full : List GameRecord) (edited : List EditedRow) :
    (∀ r ∈ full, r.record_id ∉ edited.map EditedRow.record_id →
      r ∈ save_edits full edited)
    ∧ (∀ e ∈ edited, e.record_id ∉ full.map GameRecord.record_id →
      e.record_id ∉ (save_edits full edited).map GameRecord.record_id)
    ∧ (save_edits full edited).map GameRecord.record_id
        = full.map GameRecord.record_id
    ∧ (save_edits full edited).length = full.length
    ∧ (∀ (i : ℕ) (r : GameRecord) (e : EditedRow),
        full[i]? = some r → lastEdit edited r.record_id = some e →
        (save_edits full edited)[i]? = some (recompute e)
        ∧ (recompute e).player = e.player
        ∧ (recompute e).accuracy = calc_accuracy e.shots e.made) := by
  refine ⟨?_, ?_, save_edits_map_record_id full edited,
    save_edits_length full edited, ?_⟩
  · intro r hr h
    exact save_edits_mem_of_unmatched full edited r hr h
  · intro e _ h hmem
    rw [save_edits_map_record_id] at hmem
    exact h hmem
  · intro i r e hf he
    refine ⟨?_, rfl, rfl⟩
    rw [save_edits_getElem? full edited i r hf, he]
    rfl

/-- Witness for the amended C1: at the counterexample input B's row
survives untouched and the new id 3 is not inserted; and when an edited
row does match an on-disk id (row 1, with its player field edited from
`A` to `C`), the stored row is exactly the recomputed edited row, whose
player is the edited `C`, not the filter player `A`. -/
theorem save_edits_update_only_witness :
    (⟨"2", "2024-01-01", "B", 8, 4, "❌ 否", 50⟩ : GameRecord)
      ∈ save_edits
        [⟨"1", "2024-01-01", "A", 10, 5, "✅ 是", 50⟩,
         ⟨"2", "2024-01-01", "B", 8, 4, "❌ 否", 50⟩]
        [⟨"3", "2024-01-02", "A", 6, 3, "✅ 是"⟩]
    ∧ "3" ∉ (save_edits
        [⟨"1", "2024-01-01", "A", 10, 5, "✅ 是", 50⟩,
         ⟨"2", "2024-01-01", "B", 8, 4, "❌ 否", 50⟩]
        [⟨"3", "2024-01-02", "A", 6, 3, "✅ 是"⟩]).map GameRecord.record_id
    ∧ (save_edits
        [⟨"1", "2024-01-01", "A", 10, 5, "✅ 是", 50⟩,
         ⟨"2", "2024-01-01", "B", 8, 4, "❌ 否", 50⟩]
        [⟨"1", "2024-01-01", "C", 9, 3, "✅ 是"⟩])[0]?
      = some (recompute ⟨"1", "2024-01-01", "C", 9, 3, "✅ 是"⟩)
    ∧ (recompute ⟨"1", "2024-01-01", "C", 9, 3, "✅ 是"⟩).player = "C" :=
  ⟨(save_edits_update_only
      [⟨"1", "2024-01-01", "A", 10, 5, "✅ 是", 50⟩,
       ⟨"2", "2024-01-01", "B", 8, 4, "❌ 否", 50⟩]
      [⟨"3", "2024-01-02", "A", 6, 3, "✅ 是"⟩]).1
      ⟨"2", "2024-01-01", "B", 8, 4, "❌ 否", 50⟩ (by decide) (by decide),
   (save_edits_update_only
      [⟨"1", "2024-01-01", "A", 10, 5, "✅ 是", 50⟩,
       ⟨"2", "2024-01-01", "B", 8, 4, "❌ 否", 50⟩]
      [⟨"3", "2024-01-02", "A", 6, 3, "✅ 是"⟩]).2.1
      ⟨"3", "2024-01-02", "A", 6, 3, "✅ 是"⟩ (by decide) (by decide),
   ((save_edits_update_only
      [⟨"1", "2024-01-01", "A", 10, 5, "✅ 是", 50⟩,
       ⟨"2", "2024-01-01", "B", 8, 4, "❌ 否", 50⟩]
      [⟨"1", "2024-01-01", "C", 9, 3, "✅ 是"⟩]).2.2.2.2 0
      ⟨"1", "2024-01-01", "A", 10, 5, "✅ 是", 50⟩
      ⟨"1", "2024-01-01", "C", 9, 3, "✅ 是"⟩ rfl rfl).1,
   ((save_edits_update_only
      [⟨"1", "2024-01-01", "A", 10, 5, "✅ 是", 50⟩,
       ⟨"2", "2024-01-01", "B", 8, 4, "❌ 否", 50⟩]
      [⟨"1", "2024-01-01", "C", 9, 3, "✅ 是"⟩]).2.2.2.2 0
      ⟨"1", "2024-01-01", "A", 10, 5, "✅ 是", 50⟩
      ⟨"1", "2024-01-01", "C", 9, 3, "✅ 是"⟩ rfl rfl).2.1⟩

/-- C2 counterexample: with on-disk ids `{1,2,3}` and an edited subset
containing only ids 1 and 3 with modified fields, record 2 is NOT deleted:
the saved store still holds all three ids and row 2 is byte-identical to
its on-disk version, contradicting deletion of absent ids. -/
theorem whole_set_deletion_counterexample :
    (save_edits
        [⟨"1", "2024-01-01", "A", 10, 5, "✅ 是", 50⟩,
         ⟨"2", "2024-01-02", "A", 8, 4, "❌ 否", 50⟩,
         ⟨"3", "2024-01-03", "B", 6, 3, "✅ 是", 50⟩]
        [⟨"1", "2024-01-01", "A", 9, 3, "✅ 是"⟩,
         ⟨"3", "2024-01-03", "B", 7, 2, "❌ 否"⟩]).map GameRecord.record_id
      = ["1", "2", "3"]
    ∧ "2" ∈ (save_edits
        [⟨"1", "2024-01-01", "A", 10, 5, "✅ 是", 50⟩,
         ⟨"2", "2024-01-02", "A", 8, 4, "❌ 否", 50⟩,
         ⟨"3", "2024-01-03", "B", 6, 3, "✅ 是", 50⟩]
        [⟨"1", "2024-01-01", "A", 9, 3, "✅ 是"⟩,
         ⟨"3", "2024-01-03", "B", 7, 2, "❌ 否"⟩]).map GameRecord.record_id
    ∧ (save_edits
        [⟨"1", "2024-01-01", "A", 10, 5, "✅ 是", 50⟩,
         ⟨"2", "2024-01-02", "A", 8, 4, "❌ 否", 50⟩,
         ⟨"3", "2024-01-03", "B", 6, 3, "✅ 是", 50⟩]
        [⟨"1", "2024-01-01", "A", 9, 3, "✅ 是"⟩,
         ⟨"3", "2024-01-03", "B", 7, 2, "❌ 否"⟩])[1]?
      = some ⟨"2", "2024-01-02", "A", 8, 4, "❌ 否", 50⟩ := by
  refine ⟨rfl, by decide, rfl⟩

/-- C2 (amended): the whole-set save treats the edited subset as a source
of in-place overwrites, not as the surviving id set: a store row whose id
has a match in the edited subset is replaced by the (accuracy-recomputed)
last matching edited row, and a store row whose id has no match — even one
omitted from the edited subset — is kept unchanged, never deleted; ids are
matched by exact string equality (no trimming). -/
theorem save_edits_overwrite_or_keep (full : List GameRecord)
    (edited : List EditedRow) (i : ℕ) (r : GameRecord) (h : full[i]? = some r) :
    (∀ e, lastEdit edited r.record_id = some e →
      (save_edits full edited)[i]? = some (recompute e))
    ∧ (lastEdit edited r.record_id = none →
      (save_edits full edited)[i]? = some r) := by
  constructor
  · intro e he
    rw [save_edits_getElem? full edited i r h, he]
    rfl
  · intro he
    rw [save_edits_getElem? full edited i r h, he]
    rfl

/-- Witness for the amended C2 at the counterexample input: row 1 is
overwritten from the edited subset, row 2 (absent from the subset) is
kept. -/
theorem save_edits_overwrite_or_keep_witness :
    (save_edits
        [⟨"1", "2024-01-01", "A", 10, 5, "✅ 是", 50⟩,
         ⟨"2", "2024-01-02", "A", 8, 4, "❌ 否", 50⟩,
         ⟨"3", "2024-01-03", "B", 6, 3, "✅ 是", 50⟩]
        [⟨"1", "2024-01-01", "A", 9, 3, "✅ 是"⟩,
         ⟨"3", "2024-01-03", "B", 7, 2, "❌ 否"⟩])[0]?
      = some (recompute ⟨"1", "2024-01-01", "A", 9, 3, "✅ 是"⟩)
    ∧ (save_edits
        [⟨"1", "2024-01-01", "A", 10, 5, "✅ 是", 50⟩,
         ⟨"2", "2024-01-02", "A", 8, 4, "❌ 否", 50⟩,
         ⟨"3", "2024-01-03", "B", 6, 3, "✅ 是", 50⟩]
        [⟨"1", "2024-01-01", "A", 9, 3, "✅ 是"⟩,
         ⟨"3", "2024-01-03", "B", 7, 2, "❌ 否"⟩])[1]?
      = some ⟨"2", "2024-01-02", "A", 8, 4, "❌ 否", 50⟩ :=
  ⟨(save_edits_overwrite_or_keep
      [⟨"1", "2024-01-01", "A", 10, 5, "✅ 是", 50⟩,
       ⟨"2", "2024-01-02", "A", 8, 4, "❌ 否", 50⟩,
       ⟨"3", "2024-01-03", "B", 6, 3, "✅ 是", 50⟩]
      [⟨"1", "2024-01-01", "A", 9, 3, "✅ 是"⟩,
       ⟨"3", "2024-01-03", "B", 7, 2, "❌ 否"⟩]
      0 ⟨"1", "2024-01-01", "A", 10, 5, "✅ 是", 50⟩ rfl).1
      ⟨"1", "2024-01-01", "A", 9, 3, "✅ 是"⟩ rfl,
   (save_edits_overwrite_or_keep
      [⟨"1", "2024-01-01", "A", 10, 5, "✅ 是", 50⟩,
       ⟨"2", "2024-01-02", "A", 8, 4, "❌ 否", 50⟩,
       ⟨"3", "2024-01-03", "B", 6, 3, "✅ 是", 50⟩]
      [⟨"1", "2024-01-01", "A", 9, 3, "✅ 是"⟩,
       ⟨"3", "2024-01-03", "B", 7, 2, "❌ 否"⟩]
      1 ⟨"2", "2024-01-02", "A", 8, 4, "❌ 否", 50⟩ rfl).2 rfl⟩

/-- C6: `normalizeWinIndicator` is idempotent on every input, coerces any
unrecognized non-blank value to the LOST token, keeps blank blank, and the
record-level normalization pass (run on load and before every save) is
itself idempotent, so the persisted file converges to the canonical
two-token representation. -/
theorem normalizeWinIndicator_idempotent :
    (∀ s, normalizeWinIndicator (normalizeWinIndicator s) = normalizeWinIndicator s)
    ∧ (∀ s, s ≠ "" → lookupWin winTable s = none → normalizeWinIndicator s = "L")
    ∧ normalizeWinIndicator "" = ""
    ∧ (∀ rs, normalizeRecordsPass (normalizeRecordsPass rs) = normalizeRecordsPass rs) := by
  refine ⟨normalizeWinIndicator_idem, ?_, rfl, ?_⟩
  · intro s hne hl
    rw [normalizeWinIndicator, if_neg hne, hl]
  · intro rs
    unfold normalizeRecordsPass
    rw [List.map_map]
    apply List.map_congr_left
    intro r _
    simp only [Function.comp_apply]
    cases r
    simp [normalizeWinIndicator_idem]

/-- Witness for C6: an unrecognized non-blank free-text value maps to the
LOST token, and normalization is idempotent on a historical spelling. -/
theorem normalizeWinIndicator_idempotent_witness :
    normalizeWinIndicator "maybe" = "L"
    ∧ normalizeWinIndicator (normalizeWinIndicator "✅ 是")
        = normalizeWinIndicator "✅ 是" :=
  ⟨normalizeWinIndicator_idempotent.2.1 "maybe" (by decide) (by decide),
   normalizeWinIndicator_idempotent.1 "✅ 是"⟩

/-- C7: the medal classifier uses the bands `>= 60` gold, `[50,60)`
silver, `[35,50)` bronze, `< 35` nothing; each player-month contributes at
most one medal; and the spec's scenario — one month with attempts
`[10, 10]` and makes `[7, 0]`, monthly accuracy 35 — earns exactly one
bronze and no gold or silver. -/
theorem monthlyMedals_classification :
    (∀ acc : ℚ, 60 ≤ acc → classifyMedal acc = some Medal.gold)
    ∧ (∀ acc : ℚ, 50 ≤ acc → acc < 60 → classifyMedal acc = some Medal.silver)
    ∧ (∀ acc : ℚ, 35 ≤ acc → acc < 50 → classifyMedal acc = some Medal.bronze)
    ∧ (∀ acc : ℚ, acc < 35 → classifyMedal acc = none)
    ∧ (∀ rs : List MonthlyRec,
        ((monthKeys rs).filterMap (monthMedal rs)).length ≤ (monthKeys rs).length)
    ∧ monthlyMedals [⟨some (2024, 1), 10, 7⟩, ⟨some (2024, 1), 10, 0⟩]
        = (0, 0, 1) := by
  refine ⟨?_, ?_, ?_, ?_, ?_, ?_⟩
  · intro acc h
    rw [classifyMedal, if_pos h]
  · intro acc h1 h2
    rw [classifyMedal, if_neg (by linarith), if_pos h1]
  · intro acc h1 h2
    rw [classifyMedal, if_neg (by linarith), if_neg (by linarith), if_pos h1]
  · intro acc h
    rw [classifyMedal, if_neg (by linarith), if_neg (by linarith),
      if_neg (by linarith)]
  · intro rs
    exact List.length_filterMap_le _ _
  · have hacc : calc_accuracy 20 7 = 35 := by
      rw [calc_accuracy_of_ne _ _ (by norm_num)]
      have h1 : ⌊(7 / 20 * 100 * 100 : ℚ)⌋ = 3500 := by norm_num [Int.floor_eq_iff]
      rw [round2, roundHalfEvenInt_eval_lo _ 3500 h1 (by norm_num)]
      norm_num
    have hfil : ([⟨some (2024, 1), 10, 7⟩, ⟨some (2024, 1), 10, 0⟩]
          : List MonthlyRec).filter (fun r => r.month = some (2024, 1))
        = [⟨some (2024, 1), 10, 7⟩, ⟨some (2024, 1), 10, 0⟩] := by decide
    have hsa : (([⟨some (2024, 1), 10, 7⟩, ⟨some (2024, 1), 10, 0⟩]
          : List MonthlyRec).map MonthlyRec.attempted).sum = 20 := by
      show (10 : ℚ) + (10 + 0) = 20
      norm_num
    have hsm : (([⟨some (2024, 1), 10, 7⟩, ⟨some (2024, 1), 10, 0⟩]
          : List MonthlyRec).map MonthlyRec.made).sum = 7 := by
      show (7 : ℚ) + (0 + 0) = 7
      norm_num
    have hmm : monthMedal [⟨some (2024, 1), 10, 7⟩, ⟨some (2024, 1), 10, 0⟩]
        (2024, 1) = some Medal.bronze := by
      rw [monthMedal, hfil, hsa, hsm, hacc, classifyMedal,
        if_neg (by norm_num), if_neg (by norm_num), if_pos (by norm_num)]
    have hkeys : monthKeys [⟨some (2024, 1), 10, 7⟩, ⟨some (2024, 1), 10, 0⟩]
        = [(2024, 1)] := by decide
    rw [monthlyMedals, hkeys]
    simp only [List.filterMap_cons, List.filterMap_nil, hmm]
    decide

/-- Witness for C7 at concrete accuracies 60 (gold band edge) and 35
(bronze band edge). -/
theorem monthlyMedals_classification_witness :
    classifyMedal 60 = some Medal.gold
    ∧ classifyMedal 35 = some Medal.bronze
    ∧ classifyMedal 34 = none :=
  ⟨monthlyMedals_classification.1 60 (by decide),
   monthlyMedals_classification.2.2.1 35 (by decide) (by decide),
   monthlyMedals_classification.2.2.2.1 34 (by decide)⟩

/-- C8: registering a player whose stripped name is already in the roster
is a complete no-op on the roster, and the registration surface reports
the duplicate with a non-fatal warning message instead of raising. -/
theorem duplicate_registration_noop (roster : List Player)
    (name birthday age height gender weight : String)
    (birthParse : Option (ℤ × ℕ × ℕ)) (today : ℤ × ℕ × ℕ)
    (hdup : (roster.map Player.name).contains (stripStr name) = true) :
    add_player_details roster name birthday age height gender weight
        birthParse today = roster
    ∧ (stripStr name ≠ "" →
        registerMessage roster (stripStr name) = "此球員已登錄") := by
  constructor
  · rw [add_player_details.eq_def]
    by_cases h0 : stripStr name = ""
    · rw [if_pos h0]
    · rw [if_neg h0, if_pos hdup]
  · intro hne
    rw [registerMessage, if_neg hne, if_pos hdup]

/-- Witness for C8: registering `" A "` against a roster already holding
`"A"` leaves the roster unchanged and yields the duplicate message. -/
theorem duplicate_registration_noop_witness :
    add_player_details [⟨"A", "", "", "", "", ""⟩] " A " "2000-01-01" "" "170" "男"
        "60" (some (2000, 1, 1)) (2026, 10, 12) = [⟨"A", "", "", "", "", ""⟩]
    ∧ registerMessage [⟨"A", "", "", "", "", ""⟩] (stripStr " A ") = "此球員已登錄" :=
  have h := duplicate_registration_noop [⟨"A", "", "", "", "", ""⟩] " A "
    "2000-01-01" "" "170" "男" "60" (some (2000, 1, 1)) (2026, 10, 12) (by decide)
  ⟨h.1, h.2 (by decide)⟩

/-- C10: in the player-update flow, a recomputed age of 0 and a zero
height or weight are stored as the empty string, and nonzero heights and
weights are truncated to integers and stored as strings. -/
theorem update_zero_fields_as_empty (roster : List Player) (editName : String)
    (byr : ℤ) (bm bd : ℕ) (ty : ℤ) (tm td : ℕ)
    (newHeight : ℚ) (newGender : String) (newWeight : ℚ) (p : Player)
    (hp : p ∈ update_player_details roster editName byr bm bd ty tm td
        newHeight newGender newWeight)
    (hname : p.name = editName) :
    (computeAge ty tm td byr bm bd = 0 → p.age = "")
    ∧ (computeAge ty tm td byr bm bd ≠ 0 →
        p.age = toString (computeAge ty tm td byr bm bd))
    ∧ (newHeight = 0 → p.height = "")
    ∧ (newHeight ≠ 0 → p.height = toString (pyTrunc newHeight))
    ∧ (newWeight = 0 → p.weight = "")
    ∧ (newWeight ≠ 0 → p.weight = toString (pyTrunc newWeight)) := by
  rcases List.mem_map.mp hp with ⟨p0, hp0, heq⟩
  by_cases h0 : p0.name = editName
  · rw [if_pos h0] at heq
    subst heq
    refine ⟨?_, ?_, ?_, ?_, ?_, ?_⟩ <;> intro hz <;> simp [ageStr, sizeStr, hz]
  · rw [if_neg h0] at heq
    rw [← heq] at hname
    exact absurd hname h0

/-- Witness for C10: updating player A with a birthday in the current
year (age 0), height 0 and weight 72. -/
theorem update_zero_fields_as_empty_witness :
    ageStr (computeAge 2026 10 12 2026 3 1) = ""
    ∧ sizeStr 0 = ""
    ∧ sizeStr 72 = toString (pyTrunc 72) :=
  have h := update_zero_fields_as_empty [⟨"A", "", "", "", "", ""⟩] "A"
    2026 3 1 2026 10 12 0 "男" 72
    ⟨"A", fmtDate 2026 3 1, ageStr (computeAge 2026 10 12 2026 3 1),
      sizeStr 0, "男", sizeStr 72⟩
    (by simp [update_player_details]) rfl
  ⟨h.1 (by decide), h.2.2.1 rfl, h.2.2.2.2.2 (by decide)⟩

end Basketball
